import Mathlib

/-!
Shallow embedding of the `meeting-recorder` repository's core logic
(`src/recorder.rs`, `src/device.rs`) and proofs about it.

Samples are 16-bit signed integers, modelled as `Int` values; the mixing
arithmetic is done on 32-bit signed integers in the source, which never
overflows for sums of two 16-bit values, so plain `Int` arithmetic with the
explicit clamp is an exact model.  Sample blocks are `List Int`; the two
inter-thread queues are `List (List Int)` (FIFO front-first).
-/

namespace Recorder

/-- The constant `i16::MIN` as an integer. -/
def i16Min : Int := -32768

/-- The constant `i16::MAX` as an integer. -/
def i16Max : Int := 32767

/-- Rust's `Ord::clamp`: `if x < lo { lo } else if x > hi { hi } else { x }`. -/
def rustClamp (x lo hi : Int) : Int :=
  if x < lo then lo else if x > hi then hi else x

/-- Mixing of two samples, `recorder.rs` lines 190–194 / 237–240:
`(a as i32 + b as i32).clamp(i16::MIN as i32, i16::MAX as i32) as i16`. -/
def mix (a b : Int) : Int := rustClamp (a + b) i16Min i16Max

/-- Mono→stereo expansion, `recorder.rs` lines 153–157 and 167–171:
if the source's channel count is 1, `samples.iter().flat_map(|&s| [s, s])`,
otherwise the block is kept unchanged. -/
def expandMono (ch : ℕ) (samples : List Int) : List Int :=
  if ch = 1 then samples.flatMap (fun s => [s, s]) else samples

/-- Drain phase for one queue (`recorder.rs` lines 149–174): every queued
block is expanded and appended to that source's mix buffer, in FIFO order. -/
def drainQueue (ch : ℕ) (buf : List Int) (q : List (List Int)) : List Int :=
  buf ++ q.flatMap (expandMono ch)

/-- Mix phase, `recorder.rs` lines 179–202.  Returns the samples written to
the sink and the two buffers after the consumed prefix is drained. -/
def mixPhase (mic sys : List Int) : List Int × List Int × List Int :=
  let minLen := min mic.length sys.length
  if minLen ≥ 2 then
    let pairs := minLen / 2
    let written := (List.range pairs).flatMap (fun i =>
      [mix (mic.getD (i * 2) 0) (sys.getD (i * 2) 0),
       mix (mic.getD (i * 2 + 1) 0) (sys.getD (i * 2 + 1) 0)])
    (written, mic.drop (pairs * 2), sys.drop (pairs * 2))
  else ([], mic, sys)

/-- Starvation phase, `recorder.rs` lines 206–224: if exactly one buffer is
empty and the other holds at least one full stereo pair, pass the non-empty
buffer's complete pairs through unmixed. -/
def starvePhase (mic sys : List Int) : List Int × List Int × List Int :=
  if mic.length ≥ 2 ∧ sys = [] then
    let pairs := mic.length / 2
    ((List.range pairs).flatMap (fun i =>
      [mic.getD (i * 2) 0, mic.getD (i * 2 + 1) 0]),
     mic.drop (pairs * 2), sys)
  else if sys.length ≥ 2 ∧ mic = [] then
    let pairs := sys.length / 2
    ((List.range pairs).flatMap (fun i =>
      [sys.getD (i * 2) 0, sys.getD (i * 2 + 1) 0]),
     mic, sys.drop (pairs * 2))
  else ([], mic, sys)

/-- Final drain on mixer exit, `recorder.rs` lines 228–255: mix
`max(len)/2` pairs with `get(..).unwrap_or(0)` supplying silence for the
missing counterpart, then write any remaining unpaired samples of either
buffer verbatim. -/
def finalDrain (mic sys : List Int) : List Int :=
  let maxLen := max mic.length sys.length
  let pairs := maxLen / 2
  let mixed := (List.range pairs).flatMap (fun i =>
    [mix (mic.getD (i * 2) 0) (sys.getD (i * 2) 0),
     mix (mic.getD (i * 2 + 1) 0) (sys.getD (i * 2 + 1) 0)])
  let micTail := if mic.length > pairs * 2 then mic.drop (pairs * 2) else []
  let sysTail := if sys.length > pairs * 2 then sys.drop (pairs * 2) else []
  mixed ++ micTail ++ sysTail

/-- Result of one iteration of the mixer loop. -/
structure MixerStepResult where
  written : List Int
  micBuf : List Int
  sysBuf : List Int
  exit : Bool
  deriving Repr, DecidableEq

/-- One iteration of the mixer loop, `recorder.rs` lines 144–262.
`micQ`/`sysQ` are the blocks the two `try_recv` loops yield in this
iteration (everything currently queued); `received_any` is true exactly
when either yielded at least one block.  The loop exits (writing the final
drain) when the running flag is false and nothing was received. -/
def mixerStep (running : Bool) (micCh sysCh : ℕ) (micQ sysQ : List (List Int))
    (micBuf sysBuf : List Int) : MixerStepResult :=
  let receivedAny := !micQ.isEmpty || !sysQ.isEmpty
  let micB1 := drainQueue micCh micBuf micQ
  let sysB1 := drainQueue sysCh sysBuf sysQ
  let m := mixPhase micB1 sysB1
  let s := starvePhase m.2.1 m.2.2
  if !running && !receivedAny then
    { written := m.1 ++ s.1 ++ finalDrain s.2.1 s.2.2,
      micBuf := s.2.1, sysBuf := s.2.2, exit := true }
  else
    { written := m.1 ++ s.1, micBuf := s.2.1, sysBuf := s.2.2, exit := false }

/-- Capture-stream callback, `recorder.rs` lines 275–287 (mic) and 300–311
(system audio): if the shared running flag is false the block is discarded
(early return, nothing sent); otherwise the converted block is sent on the
source's queue.  The f32→i16 conversion happens after the guard and is
abstracted here: `block` stands for the already-converted samples. -/
def callbackPush (running : Bool) (block : List Int) (q : List (List Int)) :
    List (List Int) :=
  if !running then q else q ++ [block]

/-- Result of a recording session, `recorder.rs` lines 380–384: the struct
holds only the output filename. -/
structure RecordingResult where
  filename : String
  deriving Repr, DecidableEq

/-- Construction of the returned value, `recorder.rs` lines 366–371: the
file's byte size is read (and printed) after finalization, but the value
returned to the caller is built from the filename alone. -/
def mkRecordingResult (combinedFilename : String) (fileSize : ℕ) :
    RecordingResult :=
  { filename := combinedFilename }

/-- The operation `DeviceManager::take_device`, `device.rs` lines 39–45: if the index is
in range, `Vec::remove(index)` returns the device at that index and shifts
the following devices down by one; otherwise `None` and no change.  Devices
are modelled by natural-number identities. -/
def takeDevice (devices : List ℕ) (index : ℕ) : Option ℕ × List ℕ :=
  if h : index < devices.length then
    (some devices[index], devices.eraseIdx index)
  else
    (none, devices)

/-- Leap-year test, `recorder.rs` lines 54 and 65:
`(year % 4 == 0 && year % 100 != 0) || (year % 400 == 0)`. -/
def isLeap (y : ℕ) : Bool :=
  (y % 4 == 0 && y % 100 != 0) || y % 400 == 0

/-- Days in a year as used by the year loop, `recorder.rs` line 55. -/
def daysInYear (y : ℕ) : ℕ :=
  if isLeap y then 366 else 365

/-- Month-length table, `recorder.rs` lines 66–70. -/
def monthLengths (leap : Bool) : List ℕ :=
  if leap then [31, 29, 31, 30, 31, 30, 31, 31, 30, 31, 30, 31]
  else [31, 28, 31, 30, 31, 30, 31, 31, 30, 31, 30, 31]

/-- Year loop, `recorder.rs` lines 51–62: starting from 1970, subtract whole
years from the day count while at least 365 days remain and the current year
fits. -/
def yearLoop (year doy : ℕ) : ℕ × ℕ :=
  if doy ≥ 365 then
    if doy ≥ daysInYear year then
      yearLoop (year + 1) (doy - daysInYear year)
    else (year, doy)
  else (year, doy)
termination_by doy
decreasing_by
  have h365 : 365 ≤ daysInYear year := by
    unfold daysInYear
    split <;> omega
  omega

/-- Month loop, `recorder.rs` lines 72–81: `day` starts at `day_of_year + 1`
and whole months are subtracted while `day` exceeds the month's length. -/
def monthLoop : List ℕ → ℕ → ℕ → ℕ × ℕ
  | [], month, day => (month, day)
  | dim :: rest, month, day =>
    if day > dim then monthLoop rest (month + 1) (day - dim)
    else (month, day)

/-- Timestamp decomposition, `recorder.rs` lines 41–85: UTC epoch seconds to
`(year, month, day, hours, minutes)`. -/
def dateOf (secs : ℕ) : ℕ × ℕ × ℕ × ℕ × ℕ :=
  let days := secs / 86400
  let secsInDay := secs % 86400
  let yd := yearLoop 1970 days
  let md := monthLoop (monthLengths (isLeap yd.1)) 1 (yd.2 + 1)
  (yd.1, md.1, md.2, secsInDay / 3600, secsInDay % 3600 / 60)

/-- Rust's `{:02}` formatting of an unsigned value. -/
def pad2 (n : ℕ) : String :=
  if n < 10 then "0" ++ toString n else toString n

/-- Output filename, `recorder.rs` line 88:
`format!("{:02}-{:02}-{}-{:02}-{:02}-recording.wav", month, day, year, hours, minutes)`. -/
def filenameOf (secs : ℕ) : String :=
  pad2 (dateOf secs).2.1 ++ "-" ++ pad2 (dateOf secs).2.2.1 ++ "-" ++
    toString (dateOf secs).1 ++ "-" ++ pad2 (dateOf secs).2.2.2.1 ++ "-" ++
    pad2 (dateOf secs).2.2.2.2 ++ "-recording.wav"

/-- Reference (Gregorian) day count: total days in the `n` consecutive
years starting at year `y`. -/
def yearsFrom (y : ℕ) : ℕ → ℕ
  | 0 => 0
  | n + 1 => daysInYear y + yearsFrom (y + 1) n

/-- Reference (Gregorian) day count: days of year `y` that precede month
`m` (1-based). -/
def monthsBefore (leap : Bool) (m : ℕ) : ℕ :=
  ((monthLengths leap).take (m - 1)).sum

/-- Reference (Gregorian) conversion of a calendar date (`y ≥ 1970`,
`m`, `d` 1-based) to days since the Unix epoch. -/
def daysFromCivil (y m d : ℕ) : ℕ :=
  yearsFrom 1970 (y - 1970) + monthsBefore (isLeap y) m + (d - 1)

/-- Epoch seconds of the UTC instant `y-m-d hh:mi:ss`. -/
def epochOf (y m d hh mi ss : ℕ) : ℕ :=
  86400 * daysFromCivil y m d + 3600 * hh + 60 * mi + ss

/-- Width-4 zero padding (`{:04}`), the spec's format for the year field. -/
def pad4 (n : ℕ) : String :=
  if n < 10 then "000" ++ toString n
  else if n < 100 then "00" ++ toString n
  else if n < 1000 then "0" ++ toString n
  else toString n

end Recorder

namespace Recorder

/-- Pairs written by `(List.range p).flatMap (fun i => [g (i*2), g (i*2+1)])`
are exactly the first `p*2` positions of `g`. -/
theorem range_flatMap_pairs (g : ℕ → Int) (p : ℕ) :
    (List.range p).flatMap (fun i => [g (i * 2), g (i * 2 + 1)]) =
      (List.range (p * 2)).map g := by
  induction p with
  | zero => rfl
  | succ n ih =>
    rw [List.range_succ, List.flatMap_append, ih, Nat.succ_mul,
      List.range_succ, List.range_succ]
    simp

/-- Reading inside the paired region of such a write gives `g` at that
position. -/
theorem range_flatMap_pairs_getD (g : ℕ → Int) (p j : ℕ) (hj : j < p * 2) :
    ((List.range p).flatMap (fun i => [g (i * 2), g (i * 2 + 1)])).getD j 0 =
      g j := by
  rw [range_flatMap_pairs, List.getD_eq_getElem?_getD, List.getElem?_map,
    List.getElem?_range hj]
  rfl

/-- C1: the mixer combines two 16-bit samples by adding them as (32-bit)
integers and clamping the sum into `[i16::MIN, i16::MAX]`:
`mix a b = clamp (a+b)`, with `mix 1000 3000 = 4000` and
`mix 20000 20000 = 32767`; in the mix phase this rule is applied
independently at every position of each stereo pair (left with left, right
with right). -/
theorem mix_clamps (a b : Int) (mic sys : List Int) (i : ℕ)
    (h : i < min mic.length sys.length / 2) :
    mix a b = max i16Min (min i16Max (a + b)) ∧
    mix 1000 3000 = 4000 ∧
    mix 20000 20000 = 32767 ∧
    (mixPhase mic sys).1.getD (i * 2) 0 =
      mix (mic.getD (i * 2) 0) (sys.getD (i * 2) 0) ∧
    (mixPhase mic sys).1.getD (i * 2 + 1) 0 =
      mix (mic.getD (i * 2 + 1) 0) (sys.getD (i * 2 + 1) 0) := by
  refine ⟨?_, by decide, by decide, ?_, ?_⟩
  · unfold mix rustClamp i16Min i16Max
    split <;> rename_i h1
    · omega
    · split <;> rename_i h2 <;> omega
  all_goals {
    have hmin : min mic.length sys.length ≥ 2 := by omega
    unfold mixPhase
    simp only [hmin, if_pos, ge_iff_le]
    exact range_flatMap_pairs_getD
      (fun j => mix (mic.getD j 0) (sys.getD j 0))
      (min mic.length sys.length / 2) _ (by omega)
  }

/-- C4: mono→stereo expansion is pure duplication — the empty block expands
to the empty block, `s :: l` expands to `s :: s :: expansion of l`, the
expanded length is exactly twice the input length, and a block from a
source whose channel count is not 1 is kept unchanged. -/
theorem expandMono_duplicates (s : Int) (l : List Int) (ch : ℕ)
    (hch : ch ≠ 1) :
    expandMono 1 [] = [] ∧
    expandMono 1 (s :: l) = s :: s :: expandMono 1 l ∧
    (expandMono 1 l).length = 2 * l.length ∧
    expandMono ch l = l := by
  refine ⟨rfl, rfl, ?_, ?_⟩
  · unfold expandMono
    rw [if_pos rfl]
    induction l with
    | nil => rfl
    | cons x xs ih => simp only [List.flatMap_cons, List.length_append, ih]; simp; omega
  · unfold expandMono
    rw [if_neg hch]

/-- Reading the first `n ≤ l.length` positions of `l` via `getD` is `take`. -/
theorem map_range_getD (l : List Int) (n : ℕ) (h : n ≤ l.length) :
    (List.range n).map (fun j => l.getD j 0) = l.take n := by
  apply List.ext_getElem
  · simp [h]
  · intro i h1 h2
    simp only [List.getElem_map, List.getElem_range, List.getElem_take]
    rw [List.getD_eq_getElem?_getD, List.getElem?_eq_getElem (by simp at h1; omega)]
    rfl

/-- Reading via `getD` through right-padding with zeros is `getD` on the original list. -/
theorem getD_append_replicate_zero (l : List Int) (n i : ℕ) :
    (l ++ List.replicate (n - l.length) 0).getD i 0 = l.getD i 0 := by
  by_cases hi : i < l.length
  · rw [List.getD_eq_getElem?_getD, List.getElem?_append_left hi,
      ← List.getD_eq_getElem?_getD]
  · rw [List.getD_eq_getElem?_getD, List.getElem?_append_right (by omega),
      List.getElem?_replicate, List.getD_eq_getElem?_getD,
      List.getElem?_eq_none (by omega)]
    split <;> rfl

/-- C7: a capture-stream callback that observes the running flag false
discards its block: the queue is left unchanged, nothing is enqueued; when
the flag is true the converted block is appended to the queue. -/
theorem callback_discards_when_stopped (block : List Int)
    (q : List (List Int)) :
    callbackPush false block q = q ∧
    callbackPush true block q = q ++ [block] := by
  constructor <;> rfl

/-- The starvation phase on a non-empty left buffer and empty right buffer
writes the left buffer's complete pairs and drains them. -/
theorem starvePhase_left (buf : List Int) (h : 2 ≤ buf.length) :
    starvePhase buf [] =
      (buf.take (buf.length / 2 * 2), buf.drop (buf.length / 2 * 2), []) := by
  unfold starvePhase
  rw [if_pos ⟨h, rfl⟩]
  refine Prod.ext ?_ rfl
  show (List.range (buf.length / 2)).flatMap _ = _
  rw [range_flatMap_pairs (fun j => buf.getD j 0),
    map_range_getD _ _ (Nat.div_mul_le_self _ _)]

/-- Symmetric case: empty left buffer, non-empty right buffer. -/
theorem starvePhase_right (buf : List Int) (h : 2 ≤ buf.length) :
    starvePhase [] buf =
      (buf.take (buf.length / 2 * 2), [], buf.drop (buf.length / 2 * 2)) := by
  unfold starvePhase
  rw [if_neg (by rintro ⟨h1, -⟩; simp at h1), if_pos ⟨h, rfl⟩]
  refine Prod.ext ?_ rfl
  show (List.range (buf.length / 2)).flatMap _ = _
  rw [range_flatMap_pairs (fun j => buf.getD j 0),
    map_range_getD _ _ (Nat.div_mul_le_self _ _)]

/-- C3: if after the mix phase exactly one mix buffer is empty and the other
holds at least one full stereo pair, the starvation phase writes the
non-empty buffer's complete pairs unmixed, in order, draining them; in
particular a session iteration in which a stereo source delivers blocks
totalling `N` stereo pairs while the other source delivers nothing writes
exactly those samples, unmixed and in original order, leaving both buffers
empty. -/
theorem starvation_passthrough (buf : List Int) (r : Bool) (cS : ℕ)
    (blocks : List (List Int)) (hbuf : 2 ≤ buf.length)
    (hblocks : 2 ∣ (blocks.flatMap (fun b => b)).length) :
    starvePhase buf [] =
      (buf.take (buf.length / 2 * 2), buf.drop (buf.length / 2 * 2), []) ∧
    starvePhase [] buf =
      (buf.take (buf.length / 2 * 2), [], buf.drop (buf.length / 2 * 2)) ∧
    (mixerStep r 2 cS blocks [] [] []).written =
      blocks.flatMap (fun b => b) ∧
    (mixerStep r 2 cS blocks [] [] []).micBuf = [] ∧
    (mixerStep r 2 cS blocks [] [] []).sysBuf = [] := by
  refine ⟨starvePhase_left buf hbuf, starvePhase_right buf hbuf, ?_⟩
  have hdrain : drainQueue 2 [] blocks = blocks.flatMap (fun b => b) := by
    unfold drainQueue
    rw [List.nil_append]
    have h2 : expandMono 2 = fun b => b := by
      funext b
      simp [expandMono]
    rw [h2]
  have hmix : mixPhase (blocks.flatMap (fun b => b)) [] =
      ([], blocks.flatMap (fun b => b), []) := by
    unfold mixPhase
    rw [if_neg (by simp)]
  rcases Nat.lt_or_ge (blocks.flatMap (fun b => b)).length 2 with hlt | hge
  · have hnil : blocks.flatMap (fun b => b) = [] := by
      rcases hblocks with ⟨k, hk⟩
      have : (blocks.flatMap (fun b => b)).length = 0 := by omega
      exact List.eq_nil_of_length_eq_zero this
    unfold mixerStep
    rw [hdrain, hnil]
    simp only [drainQueue, List.flatMap_nil, List.append_nil]
    split <;> simp [mixPhase, starvePhase, finalDrain, hnil]
  · have hstarve := starvePhase_left _ hge
    have htake : (blocks.flatMap (fun b => b)).length / 2 * 2 =
        (blocks.flatMap (fun b => b)).length := Nat.div_mul_cancel hblocks
    unfold mixerStep
    simp only [hdrain]
    rw [show drainQueue cS [] [] = [] from rfl, hmix, hstarve, htake,
      List.take_length, List.drop_length]
    have hne : blocks ≠ [] := by
      rintro rfl
      simp at hge
    split
    · simp [List.isEmpty_iff, hne, finalDrain]
    · simp

/-- A `max` of two even numbers is even. -/
theorem two_dvd_max {m n : ℕ} (hm : 2 ∣ m) (hn : 2 ∣ n) : 2 ∣ max m n := by
  rcases Nat.le_total m n with h | h
  · rwa [Nat.max_eq_right h]
  · rwa [Nat.max_eq_left h]

/-- The final drain on two buffers of whole stereo pairs equals positionwise
mixing after zero-padding both to the longer length. -/
theorem finalDrain_eq_zipWith (a b : List Int)
    (ha : 2 ∣ a.length) (hb : 2 ∣ b.length) :
    finalDrain a b =
      List.zipWith mix
        (a ++ List.replicate (max a.length b.length - a.length) 0)
        (b ++ List.replicate (max a.length b.length - b.length) 0) := by
  have hpairs : max a.length b.length / 2 * 2 = max a.length b.length :=
    Nat.div_mul_cancel (two_dvd_max ha hb)
  have hpa : (a ++ List.replicate (max a.length b.length - a.length) 0).length
      = max a.length b.length := by
    rw [List.length_append, List.length_replicate]
    omega
  have hpb : (b ++ List.replicate (max a.length b.length - b.length) 0).length
      = max a.length b.length := by
    rw [List.length_append, List.length_replicate]
    omega
  simp only [finalDrain]
  rw [if_neg (by rw [hpairs]; omega), if_neg (by rw [hpairs]; omega),
    range_flatMap_pairs (fun j => mix (a.getD j 0) (b.getD j 0)), hpairs,
    List.append_nil, List.append_nil]
  apply List.ext_getElem
  · rw [List.length_map, List.length_range, List.length_zipWith, hpa, hpb,
      Nat.min_self]
  · intro i h1 h2
    simp only [List.getElem_map, List.getElem_range]
    rw [List.getElem_zipWith]
    simp only [List.length_map, List.length_range] at h1
    have hia : i <
        (a ++ List.replicate (max a.length b.length - a.length) 0).length := by
      rw [hpa]
      exact h1
    have hib : i <
        (b ++ List.replicate (max a.length b.length - b.length) 0).length := by
      rw [hpb]
      exact h1
    rw [← List.getD_eq_getElem _ 0 hia, ← List.getD_eq_getElem _ 0 hib,
      getD_append_replicate_zero, getD_append_replicate_zero]

/-- Length of the final drain output on even-length buffers. -/
theorem finalDrain_length_of_even (a b : List Int)
    (ha : 2 ∣ a.length) (hb : 2 ∣ b.length) :
    (finalDrain a b).length = max a.length b.length := by
  have hpa : (a ++ List.replicate (max a.length b.length - a.length) 0).length
      = max a.length b.length := by
    rw [List.length_append, List.length_replicate]
    omega
  have hpb : (b ++ List.replicate (max a.length b.length - b.length) 0).length
      = max a.length b.length := by
    rw [List.length_append, List.length_replicate]
    omega
  rw [finalDrain_eq_zipWith a b ha hb, List.length_zipWith, hpa, hpb,
    Nat.min_self]

/-- C2: on mixer exit with both mix buffers holding whole stereo pairs, the
final drain writes exactly `max(len_a, len_b)` samples, i.e.
`max(len_a, len_b)/2` stereo pairs: position by position it equals mixing
the two buffers after padding the shorter one with zeros (silence), so the
overlapping prefix is genuinely mixed, every pair beyond the shorter
buffer's end is computed with the missing counterpart as zero, and every
buffered sample occurs as an operand of its output sample — none are
dropped. -/
theorem final_drain_pads_with_silence (a b : List Int)
    (ha : 2 ∣ a.length) (hb : 2 ∣ b.length) :
    finalDrain a b =
      List.zipWith mix
        (a ++ List.replicate (max a.length b.length - a.length) 0)
        (b ++ List.replicate (max a.length b.length - b.length) 0) ∧
    (finalDrain a b).length = max a.length b.length ∧
    2 * ((finalDrain a b).length / 2) = max a.length b.length := by
  refine ⟨finalDrain_eq_zipWith a b ha hb, finalDrain_length_of_even a b ha hb,
    ?_⟩
  have hL : 2 ∣ max a.length b.length := two_dvd_max ha hb
  rw [finalDrain_length_of_even a b ha hb]
  omega

/-- Length of a paired `flatMap` write. -/
theorem flatMap_pairs_length (g : ℕ → Int) (p : ℕ) :
    ((List.range p).flatMap (fun i => [g (i * 2), g (i * 2 + 1)])).length =
      p * 2 := by
  rw [range_flatMap_pairs]
  simp

/-- The mix phase uniformly: written pairs, and both buffers lose the
consumed prefix (when fewer than two samples overlap, nothing happens and
the drop count is zero). -/
theorem mixPhase_eq (mic sys : List Int) :
    mixPhase mic sys =
      ((List.range (min mic.length sys.length / 2)).flatMap (fun i =>
        [mix (mic.getD (i * 2) 0) (sys.getD (i * 2) 0),
         mix (mic.getD (i * 2 + 1) 0) (sys.getD (i * 2 + 1) 0)]),
       mic.drop (min mic.length sys.length / 2 * 2),
       sys.drop (min mic.length sys.length / 2 * 2)) := by
  simp only [mixPhase]
  split <;> rename_i hcond
  · rfl
  · have h0 : min mic.length sys.length / 2 = 0 := by
      simp only [ge_iff_le, not_le] at hcond
      omega
    rw [h0]
    simp

/-- The mix phase always writes whole stereo pairs. -/
theorem mixPhase_written_even (mic sys : List Int) :
    2 ∣ (mixPhase mic sys).1.length := by
  rw [mixPhase_eq]
  have hl := flatMap_pairs_length
    (fun j => mix (mic.getD j 0) (sys.getD j 0))
    (min mic.length sys.length / 2)
  dsimp only
  rw [hl]
  omega

/-- The mix phase preserves evenness of both buffers. -/
theorem mixPhase_even (mic sys : List Int)
    (hm : 2 ∣ mic.length) (hs : 2 ∣ sys.length) :
    2 ∣ (mixPhase mic sys).2.1.length ∧ 2 ∣ (mixPhase mic sys).2.2.length := by
  rw [mixPhase_eq]
  simp only [List.length_drop]
  omega

/-- The starvation phase always writes whole stereo pairs and preserves
evenness of both buffers. -/
theorem starvePhase_even (mic sys : List Int)
    (hm : 2 ∣ mic.length) (hs : 2 ∣ sys.length) :
    2 ∣ (starvePhase mic sys).1.length ∧
    2 ∣ (starvePhase mic sys).2.1.length ∧
    2 ∣ (starvePhase mic sys).2.2.length := by
  unfold starvePhase
  split
  · have hl := flatMap_pairs_length (fun j => mic.getD j 0) (mic.length / 2)
    refine ⟨?_, ?_, ?_⟩
    · rw [hl]
      omega
    · simp only [List.length_drop]
      omega
    · exact hs
  · split
    · have hl := flatMap_pairs_length (fun j => sys.getD j 0) (sys.length / 2)
      refine ⟨?_, ?_, ?_⟩
      · rw [hl]
        omega
      · exact hm
      · simp only [List.length_drop]
        omega
    · exact ⟨by simp, hm, hs⟩

/-- Expanded blocks of even length make an even contribution to a buffer. -/
theorem flatMap_expand_even (c : ℕ) (q : List (List Int))
    (hq : ∀ blk ∈ q, 2 ∣ (expandMono c blk).length) :
    2 ∣ (q.flatMap (expandMono c)).length := by
  induction q with
  | nil => simp
  | cons b t ih =>
    rw [List.flatMap_cons, List.length_append]
    have h1 := hq b (List.mem_cons_self b t)
    have h2 := ih (fun blk hblk => hq blk (List.mem_cons_of_mem b hblk))
    omega

/-- The drain phase preserves evenness when all expanded blocks are even. -/
theorem drainQueue_even (c : ℕ) (buf : List Int) (q : List (List Int))
    (hb : 2 ∣ buf.length)
    (hq : ∀ blk ∈ q, 2 ∣ (expandMono c blk).length) :
    2 ∣ (drainQueue c buf q).length := by
  unfold drainQueue
  rw [List.length_append]
  have := flatMap_expand_even c q hq
  omega

/-- The starvation phase always writes whole stereo pairs, with no
assumption on the buffers. -/
theorem starvePhase_written_even (mic sys : List Int) :
    2 ∣ (starvePhase mic sys).1.length := by
  unfold starvePhase
  split
  · have hl := flatMap_pairs_length (fun j => mic.getD j 0) (mic.length / 2)
    dsimp only
    rw [hl]
    omega
  · split
    · have hl := flatMap_pairs_length (fun j => sys.getD j 0) (sys.length / 2)
      dsimp only
      rw [hl]
      omega
    · simp

/-- C6 (amended): the mix and starvation phases always write complete
stereo pairs; a whole mixer iteration writes an even number of samples and
leaves both buffers even provided both mix buffers hold an even number of
samples and every expanded block is of even length (as is always the case
for mono sources, whose blocks are duplicated).  (An odd-length mix buffer
at final drain instead produces a trailing unpaired sample — see the
counterexample.) -/
theorem mixer_writes_whole_pairs (r : Bool) (cM cS : ℕ)
    (micQ sysQ : List (List Int)) (micBuf sysBuf : List Int)
    (mic sys : List Int)
    (hm : 2 ∣ micBuf.length) (hs : 2 ∣ sysBuf.length)
    (hqm : ∀ blk ∈ micQ, 2 ∣ (expandMono cM blk).length)
    (hqs : ∀ blk ∈ sysQ, 2 ∣ (expandMono cS blk).length) :
    2 ∣ (mixPhase mic sys).1.length ∧
    2 ∣ (starvePhase mic sys).1.length ∧
    2 ∣ (mixerStep r cM cS micQ sysQ micBuf sysBuf).written.length ∧
    2 ∣ (mixerStep r cM cS micQ sysQ micBuf sysBuf).micBuf.length ∧
    2 ∣ (mixerStep r cM cS micQ sysQ micBuf sysBuf).sysBuf.length := by
  have hB1 : 2 ∣ (drainQueue cM micBuf micQ).length :=
    drainQueue_even _ _ _ hm hqm
  have hS1 : 2 ∣ (drainQueue cS sysBuf sysQ).length :=
    drainQueue_even _ _ _ hs hqs
  have hw1 : 2 ∣ (mixPhase (drainQueue cM micBuf micQ)
      (drainQueue cS sysBuf sysQ)).1.length := mixPhase_written_even _ _
  have hb2 := mixPhase_even (drainQueue cM micBuf micQ)
    (drainQueue cS sysBuf sysQ) hB1 hS1
  have hw2 : 2 ∣ (starvePhase
      (mixPhase (drainQueue cM micBuf micQ) (drainQueue cS sysBuf sysQ)).2.1
      (mixPhase (drainQueue cM micBuf micQ) (drainQueue cS sysBuf sysQ)).2.2
      ).1.length := starvePhase_written_even _ _
  have hb3 := starvePhase_even
    (mixPhase (drainQueue cM micBuf micQ) (drainQueue cS sysBuf sysQ)).2.1
    (mixPhase (drainQueue cM micBuf micQ) (drainQueue cS sysBuf sysQ)).2.2
    hb2.1 hb2.2
  have hfd : 2 ∣ (finalDrain
      (starvePhase
        (mixPhase (drainQueue cM micBuf micQ) (drainQueue cS sysBuf sysQ)).2.1
        (mixPhase (drainQueue cM micBuf micQ) (drainQueue cS sysBuf sysQ)).2.2
        ).2.1
      (starvePhase
        (mixPhase (drainQueue cM micBuf micQ) (drainQueue cS sysBuf sysQ)).2.1
        (mixPhase (drainQueue cM micBuf micQ) (drainQueue cS sysBuf sysQ)).2.2
        ).2.2).length := by
    rw [finalDrain_length_of_even _ _ hb3.2.1 hb3.2.2]
    exact two_dvd_max hb3.2.1 hb3.2.2
  refine ⟨mixPhase_written_even mic sys, starvePhase_written_even mic sys,
    ?_, ?_, ?_⟩ <;>
    simp only [mixerStep] <;> split <;> dsimp only <;>
    (try simp only [List.length_append]) <;> omega

/-- C6 (counterexample to the claim as stated): at final drain an
odd-length mix buffer produces a single trailing unpaired sample, so the
total number of samples written in that exit iteration is odd, not a whole
number of stereo frames. -/
theorem mixer_unpaired_tail_counterexample :
    (mixerStep false 2 2 [] [] [5] []).written = [5] ∧
    ¬ 2 ∣ (mixerStep false 2 2 [] [] [5] []).written.length := by
  constructor
  · rfl
  · decide

/-- C9 (counterexample to the claim as stated): the value returned by
`record` is built from the filename alone, so two sessions whose final
files have different byte sizes yield identical `RecordingResult`s — the
result does not contain the byte size. -/
theorem recording_result_drops_byte_size :
    mkRecordingResult "01-25-2024-14-30-recording.wav" 100 =
      mkRecordingResult "01-25-2024-14-30-recording.wav" 200 ∧
    (100 : ℕ) ≠ 200 := by
  constructor
  · rfl
  · decide

/-- C9 (amended): on success `record` returns a `RecordingResult`
containing the output file's path only; the final byte size is computed
and printed after the sink is finalized but is not part of the result. -/
theorem recording_result_contains_path_only (f : String) (s t : ℕ) :
    (mkRecordingResult f s).filename = f ∧
    mkRecordingResult f s = mkRecordingResult f t := by
  exact ⟨rfl, rfl⟩

/-- C10: `take_device i` on a manager holding `n` devices returns the
device currently at index `i` and removes it — the count drops by one and
the devices after index `i` shift down, keeping their relative order —
when `i < n`; it returns `None` and leaves the collection unchanged when
`i ≥ n`.  Concretely, after taking index 0 from `[10, 20, 30]`, taking the
stale index 1 yields device 30, not the device 20 that index 1 addressed
before the removal. -/
theorem take_device_spec (l : List ℕ) (i : ℕ) (h : i < l.length) :
    (takeDevice l i).1 = l[i]? ∧
    (takeDevice l i).2 = l.take i ++ l.drop (i + 1) ∧
    (takeDevice l i).2.length = l.length - 1 ∧
    (∀ j, l.length ≤ j → takeDevice l j = (none, l)) ∧
    (takeDevice [10, 20, 30] 0).2 = [20, 30] ∧
    (takeDevice [20, 30] 1).1 = some 30 ∧
    ([10, 20, 30] : List ℕ)[1]? = some 20 := by
  refine ⟨?_, ?_, ?_, ?_, by decide, by decide, by decide⟩
  · simp [takeDevice, h, List.getElem?_eq_getElem]
  · simp [takeDevice, h, List.eraseIdx_eq_take_drop_succ]
  · simp [takeDevice, h, List.length_eraseIdx]
  · intro j hj
    simp [takeDevice, Nat.not_lt.mpr hj]

/-- The year length is at least 365 days. -/
theorem daysInYear_ge (y : ℕ) : 365 ≤ daysInYear y := by
  unfold daysInYear
  split <;> omega

/-- The year length is at most 366 days. -/
theorem daysInYear_le (y : ℕ) : daysInYear y ≤ 366 := by
  unfold daysInYear
  split <;> omega

/-- The year loop recovers the year and day-of-year from the reference
Gregorian day count. -/
theorem yearLoop_correct :
    ∀ (n y r : ℕ), r < daysInYear (y + n) →
      yearLoop y (yearsFrom y n + r) = (y + n, r) := by
  intro n
  induction n with
  | zero =>
    intro y r hr
    rw [Nat.add_zero] at hr
    simp only [yearsFrom, Nat.zero_add, Nat.add_zero]
    rw [yearLoop]
    have h366 := daysInYear_le y
    by_cases h1 : 365 ≤ r
    · rw [if_pos h1, if_neg (by omega)]
    · rw [if_neg h1]
  | succ n ih =>
    intro y r hr
    simp only [yearsFrom]
    rw [yearLoop]
    have h365 := daysInYear_ge y
    rw [if_pos (by omega : daysInYear y + yearsFrom (y + 1) n + r ≥ 365),
      if_pos (by omega : daysInYear y + yearsFrom (y + 1) n + r ≥ daysInYear y),
      show daysInYear y + yearsFrom (y + 1) n + r - daysInYear y =
        yearsFrom (y + 1) n + r from by omega,
      ih (y + 1) r (by rw [show y + 1 + n = y + (n + 1) from by omega]; exact hr),
      show y + 1 + n = y + (n + 1) from by omega]

set_option maxHeartbeats 1000000 in
/-- The month loop recovers month and day-of-month from the reference
month-prefix day count, for every month table and every valid day. -/
theorem monthLoop_correct :
    ∀ (leap : Bool), ∀ m < 13, ∀ d < 32,
      1 ≤ m ∧ 1 ≤ d ∧ d ≤ (monthLengths leap).getD (m - 1) 0 →
      monthLoop (monthLengths leap) 1 (monthsBefore leap m + d) = (m, d) := by
  intro leap
  cases leap <;> decide

/-- A month's prefix plus its own length never exceeds the year length. -/
theorem monthsBefore_add_le :
    ∀ (leap : Bool), ∀ m < 13, 1 ≤ m →
      monthsBefore leap m + (monthLengths leap).getD (m - 1) 0 ≤
        (if leap then 366 else 365) := by
  intro leap
  cases leap <;> decide

/-- Every month has at most 31 days. -/
theorem monthLengths_le :
    ∀ (leap : Bool), ∀ m < 13, (monthLengths leap).getD (m - 1) 0 ≤ 31 := by
  intro leap
  cases leap <;> decide

/-- The full decomposition is correct on every valid Gregorian instant. -/
theorem dateOf_epochOf (y m d hh mi ss : ℕ)
    (hy : 1970 ≤ y) (hm1 : 1 ≤ m) (hm2 : m ≤ 12)
    (hd1 : 1 ≤ d) (hd2 : d ≤ (monthLengths (isLeap y)).getD (m - 1) 0)
    (hhh : hh < 24) (hmi : mi < 60) (hss : ss < 60) :
    dateOf (epochOf y m d hh mi ss) = (y, m, d, hh, mi) := by
  have hdy : daysInYear y = if isLeap y then 366 else 365 := rfl
  have hdoy : monthsBefore (isLeap y) m + (d - 1) < daysInYear y := by
    have h1 := monthsBefore_add_le (isLeap y) m (by omega) hm1
    rw [← hdy] at h1
    omega
  have hdays : epochOf y m d hh mi ss / 86400 = daysFromCivil y m d := by
    unfold epochOf
    omega
  have hmod : epochOf y m d hh mi ss % 86400 = 3600 * hh + 60 * mi + ss := by
    unfold epochOf
    omega
  have hyear : yearLoop 1970 (daysFromCivil y m d) =
      (y, monthsBefore (isLeap y) m + (d - 1)) := by
    unfold daysFromCivil
    rw [Nat.add_assoc]
    have h := yearLoop_correct (y - 1970) 1970
      (monthsBefore (isLeap y) m + (d - 1))
      (by rw [show 1970 + (y - 1970) = y from by omega]; exact hdoy)
    rw [show 1970 + (y - 1970) = y from by omega] at h
    exact h
  have hmonth : monthLoop (monthLengths (isLeap y)) 1
      (monthsBefore (isLeap y) m + (d - 1) + 1) = (m, d) := by
    have hd32 : d < 32 := by
      have := monthLengths_le (isLeap y) m (by omega)
      omega
    have h := monthLoop_correct (isLeap y) m (by omega) d hd32 ⟨hm1, hd1, hd2⟩
    rw [show monthsBefore (isLeap y) m + (d - 1) + 1 =
      monthsBefore (isLeap y) m + d from by omega]
    exact h
  simp only [dateOf]
  rw [hdays, hmod, hyear]
  dsimp only
  rw [hmonth]
  dsimp only
  rw [show (3600 * hh + 60 * mi + ss) / 3600 = hh from by omega,
    show (3600 * hh + 60 * mi + ss) % 3600 / 60 = mi from by omega]

/-- For session years (≥ 1970) the code's unpadded year formatting agrees
with the spec's `{:04}` padding. -/
theorem pad4_eq_toString (y : ℕ) (hy : 1970 ≤ y) : pad4 y = toString y := by
  unfold pad4
  rw [if_neg (by omega), if_neg (by omega), if_neg (by omega)]

/-- C8: for every session start instant (any valid Gregorian UTC datetime
from 1970 on), the output filename is
`{month:02}-{day:02}-{year:04}-{hour:02}-{minute:02}-recording.wav`: the
hand-rolled epoch-seconds-to-calendar conversion, leap years included,
agrees with the Gregorian calendar. -/
theorem filename_format (y m d hh mi ss : ℕ)
    (hy : 1970 ≤ y) (hm1 : 1 ≤ m) (hm2 : m ≤ 12)
    (hd1 : 1 ≤ d) (hd2 : d ≤ (monthLengths (isLeap y)).getD (m - 1) 0)
    (hhh : hh < 24) (hmi : mi < 60) (hss : ss < 60) :
    filenameOf (epochOf y m d hh mi ss) =
      pad2 m ++ "-" ++ pad2 d ++ "-" ++ pad4 y ++ "-" ++ pad2 hh ++ "-" ++
        pad2 mi ++ "-recording.wav" := by
  unfold filenameOf
  rw [dateOf_epochOf y m d hh mi ss hy hm1 hm2 hd1 hd2 hhh hmi hss,
    pad4_eq_toString y hy]

/-- C5: the mixer loop exits exactly when the running flag is false and no
block was received from either queue in the current iteration; and whenever
blocks are still enqueued the iteration does not exit but behaves exactly
like an iteration whose mix buffers already contain those blocks
(drained/expanded in FIFO order), so samples enqueued before the stop
signal are still drained into the mix buffers and processed. -/
theorem mixer_termination_check (r : Bool) (cM cS : ℕ)
    (micQ sysQ : List (List Int)) (micBuf sysBuf : List Int) :
    ((mixerStep r cM cS micQ sysQ micBuf sysBuf).exit = true ↔
      (r = false ∧ micQ = [] ∧ sysQ = [])) ∧
    (micQ ≠ [] ∨ sysQ ≠ [] →
      mixerStep r cM cS micQ sysQ micBuf sysBuf =
        mixerStep true cM cS [] []
          (drainQueue cM micBuf micQ) (drainQueue cS sysBuf sysQ)) := by
  constructor
  · unfold mixerStep
    rcases r with _ | _ <;> rcases micQ with _ | ⟨b, q⟩ <;>
      rcases sysQ with _ | ⟨b', q'⟩ <;> simp
  · intro hne
    have hrecv : (!micQ.isEmpty || !sysQ.isEmpty) = true := by
      rcases hne with h | h <;> rcases micQ with _ | _ <;>
        rcases sysQ with _ | _ <;> simp_all
    unfold mixerStep
    rw [hrecv]
    simp [drainQueue]

/-- Concrete instance of the mixing rule: one overlapping stereo pair. -/
theorem mix_clamps_witness :
    mix 1000 3000 = max i16Min (min i16Max (1000 + 3000)) ∧
    mix 1000 3000 = 4000 ∧
    mix 20000 20000 = 32767 ∧
    (mixPhase [1000, 2000] [3000, 4000]).1.getD 0 0 =
      mix (([1000, 2000] : List Int).getD 0 0)
        (([3000, 4000] : List Int).getD 0 0) ∧
    (mixPhase [1000, 2000] [3000, 4000]).1.getD 1 0 =
      mix (([1000, 2000] : List Int).getD 1 0)
        (([3000, 4000] : List Int).getD 1 0) :=
  mix_clamps 1000 3000 [1000, 2000] [3000, 4000] 0 (by decide)

/-- Concrete instance of the final drain: two pairs against one pair. -/
theorem final_drain_witness :
    finalDrain [1, 2, 3, 4] [5, 6] = [6, 8, 3, 4] ∧
    (finalDrain [1, 2, 3, 4] [5, 6]).length = 4 :=
  ⟨((final_drain_pads_with_silence [1, 2, 3, 4] [5, 6]
      (by decide) (by decide)).1).trans (by decide),
   ((final_drain_pads_with_silence [1, 2, 3, 4] [5, 6]
      (by decide) (by decide)).2.1).trans (by decide)⟩

/-- Concrete instance of starvation pass-through: two pairs with the other
source silent, and a one-block session iteration. -/
theorem starvation_witness :
    starvePhase [1, 2, 3, 4] [] = ([1, 2, 3, 4], [], []) ∧
    (mixerStep true 2 2 [[1, 2]] [] [] []).written = [1, 2] :=
  ⟨((starvation_passthrough [1, 2, 3, 4] true 2 [[1, 2]]
      (by decide) (by decide)).1).trans (by decide),
   ((starvation_passthrough [1, 2, 3, 4] true 2 [[1, 2]]
      (by decide) (by decide)).2.2.1).trans (by decide)⟩

/-- Concrete instance of mono→stereo expansion. -/
theorem expandMono_witness :
    expandMono 1 [] = [] ∧
    expandMono 1 [7, 8] = 7 :: 7 :: expandMono 1 [8] ∧
    (expandMono 1 [8]).length = 2 * ([8] : List Int).length ∧
    expandMono 2 [8] = [8] :=
  expandMono_duplicates 7 [8] 2 (by decide)

/-- Concrete instance of the termination check: with a block still
enqueued after the stop signal, the iteration behaves like one whose
buffers already contain it. -/
theorem mixer_termination_witness :
    mixerStep false 1 1 [[1, 2]] [] [] [] =
      mixerStep true 1 1 [] []
        (drainQueue 1 [] [[1, 2]]) (drainQueue 1 [] []) :=
  (mixer_termination_check false 1 1 [[1, 2]] [] [] []).2 (Or.inl (by decide))

/-- Concrete instance of whole-pair writing under even buffers. -/
theorem mixer_even_witness :
    2 ∣ (mixPhase [1, 2] []).1.length ∧
    2 ∣ (starvePhase [1, 2] []).1.length ∧
    2 ∣ (mixerStep false 1 1 [[9]] [] [] []).written.length ∧
    2 ∣ (mixerStep false 1 1 [[9]] [] [] []).micBuf.length ∧
    2 ∣ (mixerStep false 1 1 [[9]] [] [] []).sysBuf.length :=
  mixer_writes_whole_pairs false 1 1 [[9]] [] [] [] [1, 2] []
    (by decide) (by decide) (by decide) (by decide)

/-- Concrete instance of the filename format: 2024-01-25 14:30:00 UTC. -/
theorem filename_format_witness :
    filenameOf (epochOf 2024 1 25 14 30 0) =
      "01-25-2024-14-30-recording.wav" ∧
    epochOf 2024 1 25 14 30 0 = 1706193000 :=
  ⟨(filename_format 2024 1 25 14 30 0 (by decide) (by decide) (by decide)
      (by decide) (by decide) (by decide) (by decide) (by decide)).trans
      (by decide),
   by decide⟩

/-- Concrete instance of device removal. -/
theorem take_device_witness :
    (takeDevice [7, 8] 0).1 = ([7, 8] : List ℕ)[0]? ∧
    (takeDevice [7, 8] 0).2 =
      ([7, 8] : List ℕ).take 0 ++ ([7, 8] : List ℕ).drop 1 :=
  ⟨(take_device_spec [7, 8] 0 (by decide)).1,
   (take_device_spec [7, 8] 0 (by decide)).2.1⟩

end Recorder
